import Mathlib

set_option autoImplicit false

/-!
Verification of the witness-solving kernel of gnark (bls12-381 instantiation):
the Term/Variable model (`internal/backend/compiled`), the hint registry
(`backend/hint`), and the solution state machine
(`internal/backend/bls12-381/cs/solution.go`), shallowly embedded in Lean.

Field elements (`fr.Element`) are modelled as `ZMod r` with `r` the BLS12-381
scalar-field modulus; Go slices become Lean lists (with `getD` indexing — an
out-of-range read in Go is a runtime panic, modelled as `none`/absence where a
claim depends on it); Go panics become `Option`/a dedicated `panic` result;
`big.Int` values become `Nat`/`Int`.
-/

/-- BLS12-381 scalar field modulus (`fr.Modulus()`). -/
def frModulus : Nat := 52435875175126190479447740508185965837690552500527637822603658699938581184513

/-- The field of `fr.Element` values. -/
abbrev Fr := ZMod frModulus

/-- `ToBigIntRegular` / `String()` render the canonical representative in `[0, r)`. -/
def frString (x : Fr) : String := toString x.val

namespace Compiled

/-- Wire visibility (`compiled` package). `Virtual` terms carry only a constant. -/
inductive Visibility where
  | Public | Secret | Internal | Virtual
deriving DecidableEq, Repr

/-- A `compiled.Term` is a packed `(coeffID, wireID, visibility)` triple;
`Unpack` recovers the three components, which we store directly. -/
structure Term where
  coeffID : Nat
  wireID : Nat
  visibility : Visibility
deriving DecidableEq, Repr

/-- Reserved coefficient id for the literal constant 0 (`compiled.CoeffIdZero`). -/
def CoeffIdZero : Nat := 0
/-- Reserved coefficient id for the literal constant 1 (`compiled.CoeffIdOne`). -/
def CoeffIdOne : Nat := 1
/-- Reserved coefficient id for the literal constant 2 (`compiled.CoeffIdTwo`). -/
def CoeffIdTwo : Nat := 2
/-- Reserved coefficient id for the literal constant -1 (`compiled.CoeffIdMinusOne`). -/
def CoeffIdMinusOne : Nat := 3

/-- The literal field value denoted by a reserved coefficient id. -/
def reservedLit (cID : Nat) : Fr :=
  if cID = CoeffIdZero then 0
  else if cID = CoeffIdOne then 1
  else if cID = CoeffIdTwo then 2
  else -1

end Compiled

open Compiled

namespace Hint

/-- A raw hint computation (`hint.Function`): given the (already reduced) input
integers it returns the final contents of the pre-sized output buffer together
with an optional error, as `Call` leaves the `res` buffers plus its returned
`error`. -/
def RawFunction := List Nat → List Int × Option String

/-- The `hint.AnnotatedFunction` interface as consumed by the solver:
`call` yields the output-buffer contents and the optional error, and
`totalOutputs` gives the size of the output buffer for a given input count. -/
structure AnnFn where
  call : List Nat → List Int × Option String
  totalOutputs : Nat → Nat

end Hint

namespace CS

/-- The per-solve `solution` state (`solution.go`). `mHintsFunctions` maps a
hint id to its implementation. -/
structure Solution where
  values : List Fr
  coefficients : List Fr
  solved : List Bool
  nbSolved : Nat
  mHintsFunctions : Nat → Option Hint.AnnFn

/-- `(*solution).set`: assigns `value` to wire `id`, marks it solved and bumps
the solved counter. Returns `none` where Go panics: the wire is already solved
("solving the same wire twice should never happen.") or `id` is out of range
(slice bounds). -/
def Solution.set (s : Solution) (id : Nat) (value : Fr) : Option Solution :=
  if id < s.solved.length then
    if s.solved.getD id false then none
    else some { s with
      values := s.values.set id value
      solved := s.solved.set id true
      nbSolved := s.nbSolved + 1 }
  else none

/-- `(*solution).isValid`: solved count equals wire count. -/
def Solution.isValid (s : Solution) : Bool := s.nbSolved == s.values.length

/-- The number of wires whose solved marker is raised. -/
def Solution.countSolved (s : Solution) : Nat := s.solved.count true

/-- `(*solution).computeTerm`: returns coef*value of the term's wire, special-
casing the reserved coefficient ids. `none` models the panic "computing a term
with an unsolved wire", raised when the coefficient id is nonzero and the
referenced wire is unsolved (Go's `&&` short-circuits, so the wire is not read
when the id is zero). -/
def Solution.computeTerm (s : Solution) (t : Term) : Option Fr :=
  if t.coeffID ≠ 0 ∧ s.solved.getD t.wireID false = false then none
  else if t.coeffID = CoeffIdZero then some 0
  else if t.coeffID = CoeffIdOne then some (s.values.getD t.wireID 0)
  else if t.coeffID = CoeffIdTwo then
    some (s.values.getD t.wireID 0 + s.values.getD t.wireID 0)
  else if t.coeffID = CoeffIdMinusOne then some (-(s.values.getD t.wireID 0))
  else some (s.coefficients.getD t.coeffID 0 * s.values.getD t.wireID 0)

/-- A `compiled.Hint` descriptor: hint function id, input linear combinations,
output wire ids. -/
structure Hint where
  id : Nat
  inputs : List (List Term)
  wires : List Nat

/-- Outcome of a solver step: `panic` models a Go runtime panic, `error` a
returned Go error together with the state at the return point, `ok` success. -/
inductive SolveResult where
  | panic : SolveResult
  | error : String → Solution → SolveResult
  | ok : Solution → SolveResult

/-- The error text at solution.go:140. -/
def errWireNotInstantiated : String :=
  "expected wire to be instantiated while evaluating hint"

/-- The error text at solution.go:113. -/
def errMissingHint : String := "missing hint function"

/-- Inner input-evaluation loop of `solveWithHint` (solution.go:126-145): a
`Virtual` term adds its coefficient's canonical value to the `big.Int`
accumulator; a real-wire term must reference a solved wire (otherwise the
recoverable error is returned) and adds its `computeTerm` value
(`ToBigIntRegular` yields the canonical representative). -/
def Solution.evalLC (s : Solution) : List Term → Nat → Except String Nat
  | [], acc => .ok acc
  | t :: ts, acc =>
    if t.visibility = Visibility.Virtual then
      s.evalLC ts (acc + (s.coefficients.getD t.coeffID 0).val)
    else if s.solved.getD t.wireID false = false then
      .error errWireNotInstantiated
    else
      s.evalLC ts (acc + ((s.computeTerm t).getD 0).val)

/-- Outer input-evaluation loop of `solveWithHint` (solution.go:124-146): each
input linear combination is evaluated in order; the first failure aborts. -/
def Solution.evalInputs (s : Solution) : List (List Term) → Except String (List Nat)
  | [] => .ok []
  | lc :: rest =>
    match s.evalLC lc 0 with
    | .error e => .error e
    | .ok v =>
      match s.evalInputs rest with
      | .error e => .error e
      | .ok vs => .ok (v :: vs)

/-- The output-assignment loop of `solveWithHint` (solution.go:166-169): wire
`h.Wires[i]` is `set` to `outputs[i]` (`SetBigInt` reduces the `big.Int` modulo
`r`, which is the `Int` cast into `Fr`). `none` models a panic: `h.Wires`
shorter than the output buffer (index out of range) or `set` on a solved
wire. -/
def Solution.setWires (s : Solution) : List Nat → List Int → Option Solution
  | _, [] => some s
  | [], _ :: _ => none
  | w :: ws, o :: os =>
    match s.set w ((o : Int) : Fr) with
    | none => none
    | some s' => s'.setWires ws os

/-- `(*solution).solveWithHint` (solution.go:104-185). A wire already solved
returns success at once; a missing hint function is a recoverable error; the
inputs are evaluated, reduced modulo `r` and passed to the hint's `Call`,
whose final output-buffer contents are assigned to the output wires — also
when `Call` returned an error, which is then propagated. The model takes the
final contents of the pre-sized output buffer from `call` directly. -/
def Solution.solveWithHint (s : Solution) (vID : Nat) (h : Hint) : SolveResult :=
  if s.solved.getD vID false then .ok s
  else
    match s.mHintsFunctions h.id with
    | none => .error errMissingHint s
    | some f =>
      match s.evalInputs h.inputs with
      | .error e => .error e s
      | .ok inputs =>
        let res := f.call (inputs.map (· % frModulus))
        match s.setWires h.wires res.1 with
        | none => .panic
        | some s' =>
          match res.2 with
          | some e => .error e s'
          | none => .ok s'

/-- The spec-side scalar value of one input linear combination: the sum of the
coefficient values of its `Virtual` terms plus the `computeTerm` value of each
real-wire term (as canonical integers, before the modular reduction). -/
def Solution.specLCVal (s : Solution) (lc : List Term) : Nat :=
  (lc.map (fun t =>
    if t.visibility = Visibility.Virtual then (s.coefficients.getD t.coeffID 0).val
    else ((s.computeTerm t).getD 0).val)).sum

end CS

/-- Setting an unset position of a boolean list to `true` raises the `true`
count by one. -/
theorem count_true_set_of_unset (l : List Bool) (id : Nat)
    (h1 : id < l.length) (h2 : l.getD id false = false) :
    (l.set id true).count true = l.count true + 1 := by
  induction l generalizing id with
  | nil => simp at h1
  | cons b bs ih =>
    cases id with
    | zero =>
      simp only [List.getD_cons_zero] at h2
      subst h2
      simp [List.count_cons]
    | succ n =>
      simp only [List.length_cons, Nat.succ_lt_succ_iff] at h1
      simp only [List.getD_cons_succ] at h2
      simp only [List.set_cons_succ, List.count_cons, ih n h1 h2]
      omega

/-- C4: a wire transitions Unsolved → Solved at most once. `set` on an
already-solved wire panics (`none`); a successful `set` stores the value,
raises the marker, and bumps the solved count by one, preserving the
invariant that the count equals the number of solved-marked wires; `isValid`
holds iff the count equals the wire total. -/
theorem set_transition_once (s : CS.Solution) (id : Nat) (v : Fr)
    (hid : id < s.solved.length) :
    (s.solved.getD id false = true → s.set id v = none) ∧
    (s.solved.getD id false = false →
      s.set id v = some { s with
        values := s.values.set id v
        solved := s.solved.set id true
        nbSolved := s.nbSolved + 1 } ∧
      (s.nbSolved = s.countSolved →
        ∀ s' : CS.Solution, s.set id v = some s' → s'.nbSolved = s'.countSolved)) ∧
    (s.isValid = true ↔ s.nbSolved = s.values.length) := by
  refine ⟨fun hsolved => ?_, fun hunsolved => ⟨?_, fun hinv s' hs' => ?_⟩, ?_⟩
  · rw [CS.Solution.set, if_pos hid, if_pos hsolved]
  · rw [CS.Solution.set, if_pos hid, if_neg (by rw [hunsolved]; exact Bool.false_ne_true)]
  · rw [CS.Solution.set, if_pos hid,
      if_neg (by rw [hunsolved]; exact Bool.false_ne_true)] at hs'
    injection hs' with hs'
    subst hs'
    simp only [CS.Solution.countSolved] at hinv ⊢
    simp only [count_true_set_of_unset s.solved id hid hunsolved]
    omega
  · simp [CS.Solution.isValid]

/-- Concrete solution used by witnesses: two wires, wire 1 solved to 7. -/
def wSol : CS.Solution :=
  { values := [0, 7], coefficients := [0, 1, 2, frModulus - 1],
    solved := [false, true], nbSolved := 1, mHintsFunctions := fun _ => none }

/-- Witness for C4 at wire 0 of `wSol`. -/
theorem set_transition_once_witness :
    0 < wSol.solved.length ∧
    ((wSol.solved.getD 0 false = true → wSol.set 0 5 = none) ∧
    (wSol.solved.getD 0 false = false →
      wSol.set 0 5 = some { wSol with
        values := wSol.values.set 0 5
        solved := wSol.solved.set 0 true
        nbSolved := wSol.nbSolved + 1 } ∧
      (wSol.nbSolved = wSol.countSolved →
        ∀ s' : CS.Solution, wSol.set 0 5 = some s' → s'.nbSolved = s'.countSolved)) ∧
    (wSol.isValid = true ↔ wSol.nbSolved = wSol.values.length)) :=
  ⟨by decide, set_transition_once wSol 0 5 (by decide)⟩

/-- C2: on a solved wire, `computeTerm` with a reserved coefficient id equals
the general field multiplication by the corresponding literal (0, 1, 2, -1). -/
theorem computeTerm_reserved_mul (s : CS.Solution) (t : Term)
    (hsolved : s.solved.getD t.wireID false = true)
    (hres : t.coeffID = CoeffIdZero ∨ t.coeffID = CoeffIdOne ∨
      t.coeffID = CoeffIdTwo ∨ t.coeffID = CoeffIdMinusOne) :
    s.computeTerm t = some (reservedLit t.coeffID * s.values.getD t.wireID 0) := by
  have hne : ¬(t.coeffID ≠ 0 ∧ s.solved.getD t.wireID false = false) := by
    rw [hsolved]; simp
  rcases hres with h | h | h | h
  · rw [CS.Solution.computeTerm, if_neg hne, if_pos h]
    simp [reservedLit, h, CoeffIdZero]
  · rw [CS.Solution.computeTerm, if_neg hne,
      if_neg (by simp [h, CoeffIdOne, CoeffIdZero]), if_pos h]
    simp [reservedLit, h, CoeffIdZero, CoeffIdOne]
  · rw [CS.Solution.computeTerm, if_neg hne,
      if_neg (by simp [h, CoeffIdTwo, CoeffIdZero]),
      if_neg (by simp [h, CoeffIdTwo, CoeffIdOne]), if_pos h]
    simp only [reservedLit, h, CoeffIdZero, CoeffIdOne, CoeffIdTwo, Option.some.injEq]
    norm_num
    ring
  · rw [CS.Solution.computeTerm, if_neg hne,
      if_neg (by simp [h, CoeffIdMinusOne, CoeffIdZero]),
      if_neg (by simp [h, CoeffIdMinusOne, CoeffIdOne]),
      if_neg (by simp [h, CoeffIdMinusOne, CoeffIdTwo]), if_pos h]
    simp only [reservedLit, h, CoeffIdZero, CoeffIdOne, CoeffIdTwo, CoeffIdMinusOne,
      Option.some.injEq]
    norm_num

/-- Witness for C2: coefficient id 2 on solved wire 1 of `wSol` doubles 7. -/
theorem computeTerm_reserved_mul_witness :
    wSol.solved.getD (Term.mk 2 1 Visibility.Internal).wireID false = true ∧
    ((Term.mk 2 1 Visibility.Internal).coeffID = CoeffIdZero ∨
      (Term.mk 2 1 Visibility.Internal).coeffID = CoeffIdOne ∨
      (Term.mk 2 1 Visibility.Internal).coeffID = CoeffIdTwo ∨
      (Term.mk 2 1 Visibility.Internal).coeffID = CoeffIdMinusOne) ∧
    wSol.computeTerm (Term.mk 2 1 Visibility.Internal) =
      some (reservedLit (Term.mk 2 1 Visibility.Internal).coeffID *
        wSol.values.getD (Term.mk 2 1 Visibility.Internal).wireID 0) :=
  ⟨by decide, by decide,
    computeTerm_reserved_mul wSol (Term.mk 2 1 Visibility.Internal) (by decide) (by decide)⟩

/-- C3: `computeTerm` panics exactly when the coefficient id is not the
reserved zero id and the referenced wire is unsolved; with the zero id it
returns the zero element without reading the wire's value (the result is the
same for every values array), even on an unsolved wire. -/
theorem computeTerm_zero_guard (s : CS.Solution) (t : Term) :
    (s.computeTerm t = none ↔
      t.coeffID ≠ CoeffIdZero ∧ s.solved.getD t.wireID false = false) ∧
    (t.coeffID = CoeffIdZero →
      ∀ vals : List Fr, CS.Solution.computeTerm { s with values := vals } t = some 0) := by
  constructor
  · by_cases h1 : t.coeffID ≠ 0 ∧ s.solved.getD t.wireID false = false
    · rw [CS.Solution.computeTerm, if_pos h1]
      simpa [CoeffIdZero] using h1
    · rw [CS.Solution.computeTerm, if_neg h1]
      constructor
      · intro hc
        exfalso
        split at hc
        · exact Option.noConfusion hc
        split at hc
        · exact Option.noConfusion hc
        split at hc
        · exact Option.noConfusion hc
        split at hc
        · exact Option.noConfusion hc
        · exact Option.noConfusion hc
      · intro hc
        exact absurd (by simpa [CoeffIdZero] using hc) h1
  · intro hz vals
    have h0 : t.coeffID = 0 := hz
    rw [CS.Solution.computeTerm, if_neg (by simp [h0]), if_pos hz]

/-- Witness for C3 at a zero-coefficient term over an unsolved wire. -/
theorem computeTerm_zero_guard_witness :
    (wSol.computeTerm (Term.mk 0 0 Visibility.Internal) = none ↔
      (Term.mk 0 0 Visibility.Internal).coeffID ≠ CoeffIdZero ∧
      wSol.solved.getD (Term.mk 0 0 Visibility.Internal).wireID false = false) ∧
    ((Term.mk 0 0 Visibility.Internal).coeffID = CoeffIdZero →
      ∀ vals : List Fr,
        CS.Solution.computeTerm { wSol with values := vals }
          (Term.mk 0 0 Visibility.Internal) = some 0) :=
  computeTerm_zero_guard wSol (Term.mk 0 0 Visibility.Internal)

/-- On a list whose real-wire terms are all solved, `evalLC` returns the
accumulator plus the spec-side sum. -/
theorem evalLC_ok (s : CS.Solution) (lc : List Term) (acc : Nat)
    (h : ∀ t ∈ lc, t.visibility ≠ Visibility.Virtual →
      s.solved.getD t.wireID false = true) :
    s.evalLC lc acc = .ok (acc + s.specLCVal lc) := by
  induction lc generalizing acc with
  | nil => simp [CS.Solution.evalLC, CS.Solution.specLCVal]
  | cons t ts ih =>
    by_cases hv : t.visibility = Visibility.Virtual
    · rw [CS.Solution.evalLC, if_pos hv,
        ih _ (fun u hu => h u (List.mem_cons_of_mem _ hu))]
      simp only [CS.Solution.specLCVal, List.map_cons, List.sum_cons, if_pos hv,
        Except.ok.injEq]
      omega
    · have hs := h t (List.mem_cons_self t ts) hv
      rw [CS.Solution.evalLC, if_neg hv,
        if_neg (by rw [hs]; simp),
        ih _ (fun u hu => h u (List.mem_cons_of_mem _ hu))]
      simp only [CS.Solution.specLCVal, List.map_cons, List.sum_cons, if_neg hv,
        Except.ok.injEq]
      omega

/-- `evalLC` fails with the unresolved-dependency error as soon as a real-wire
term references an unsolved wire. -/
theorem evalLC_error (s : CS.Solution) (lc : List Term) (acc : Nat)
    (h : ∃ t ∈ lc, t.visibility ≠ Visibility.Virtual ∧
      s.solved.getD t.wireID false = false) :
    s.evalLC lc acc = .error CS.errWireNotInstantiated := by
  induction lc generalizing acc with
  | nil => simp at h
  | cons t ts ih =>
    by_cases hv : t.visibility = Visibility.Virtual
    · rw [CS.Solution.evalLC, if_pos hv]
      apply ih
      rcases h with ⟨u, hu, hnv, hns⟩
      rcases List.mem_cons.mp hu with rfl | hu'
      · exact absurd hv hnv
      · exact ⟨u, hu', hnv, hns⟩
    · by_cases hs : s.solved.getD t.wireID false = false
      · rw [CS.Solution.evalLC, if_neg hv, if_pos hs]
      · rw [CS.Solution.evalLC, if_neg hv, if_neg hs]
        apply ih
        rcases h with ⟨u, hu, hnv, hns⟩
        rcases List.mem_cons.mp hu with rfl | hu'
        · exact absurd hns hs
        · exact ⟨u, hu', hnv, hns⟩

/-- When every real-wire term of every input is solved, `evalInputs` returns
the spec-side value of each input in order. -/
theorem evalInputs_ok (s : CS.Solution) (lcs : List (List Term))
    (h : ∀ lc ∈ lcs, ∀ t ∈ lc, t.visibility ≠ Visibility.Virtual →
      s.solved.getD t.wireID false = true) :
    s.evalInputs lcs = .ok (lcs.map s.specLCVal) := by
  induction lcs with
  | nil => rfl
  | cons lc rest ih =>
    rw [CS.Solution.evalInputs,
      evalLC_ok s lc 0 (h lc (List.mem_cons_self lc rest)),
      ih (fun l hl => h l (List.mem_cons_of_mem _ hl))]
    simp

/-- `evalInputs` fails with the unresolved-dependency error when some input
has a real-wire term over an unsolved wire. -/
theorem evalInputs_error (s : CS.Solution) (lcs : List (List Term))
    (h : ∃ lc ∈ lcs, ∃ t ∈ lc, t.visibility ≠ Visibility.Virtual ∧
      s.solved.getD t.wireID false = false) :
    s.evalInputs lcs = .error CS.errWireNotInstantiated := by
  induction lcs with
  | nil => simp at h
  | cons lc rest ih =>
    by_cases hlc : ∃ t ∈ lc, t.visibility ≠ Visibility.Virtual ∧
      s.solved.getD t.wireID false = false
    · rw [CS.Solution.evalInputs, evalLC_error s lc 0 hlc]
    · have hall : ∀ t ∈ lc, t.visibility ≠ Visibility.Virtual →
          s.solved.getD t.wireID false = true := by
        intro t ht hv
        by_contra hb
        exact hlc ⟨t, ht, hv, by simpa using hb⟩
      have hrest : ∃ l ∈ rest, ∃ t ∈ l, t.visibility ≠ Visibility.Virtual ∧
          s.solved.getD t.wireID false = false := by
        rcases h with ⟨l, hl, hx⟩
        rcases List.mem_cons.mp hl with rfl | hl'
        · exact absurd hx hlc
        · exact ⟨l, hl', hx⟩
      rw [CS.Solution.evalInputs, evalLC_ok s lc 0 hall, ih hrest]

/-- A successful `set` leaves every other wire's value and marker unchanged
and preserves the array lengths. -/
theorem set_untouched (s : CS.Solution) (id j : Nat) (v : Fr) (s' : CS.Solution)
    (hset : s.set id v = some s') (hne : j ≠ id) :
    s'.values.getD j 0 = s.values.getD j 0 ∧
    s'.solved.getD j false = s.solved.getD j false := by
  rw [CS.Solution.set] at hset
  split at hset
  · split at hset
    · exact Option.noConfusion hset
    · injection hset with hset
      subst hset
      constructor
      · simp [List.getD_eq_getElem?_getD, List.getElem?_set_ne (Ne.symm hne)]
      · simp [List.getD_eq_getElem?_getD, List.getElem?_set_ne (Ne.symm hne)]
  · exact Option.noConfusion hset

/-- `setWires` touches only the wires it assigns: any index outside the
assigned prefix of the wire list keeps its value and its solved marker. -/
theorem setWires_untouched (s' : CS.Solution) (j : Nat) :
    ∀ (os : List Int) (s : CS.Solution) (ws : List Nat),
      s.setWires ws os = some s' → j ∉ ws.take os.length →
      s'.values.getD j 0 = s.values.getD j 0 ∧
      s'.solved.getD j false = s.solved.getD j false := by
  intro os
  induction os with
  | nil =>
    intro s ws hset _
    cases ws <;>
      (rw [CS.Solution.setWires] at hset; injection hset with hset; subst hset;
        exact ⟨rfl, rfl⟩)
  | cons o os ih =>
    intro s ws hset hj
    cases ws with
    | nil =>
      rw [CS.Solution.setWires] at hset
      exact Option.noConfusion hset
    | cons w ws' =>
      rw [CS.Solution.setWires] at hset
      cases hs2 : s.set w ((o : Int) : Fr) with
      | none =>
        rw [hs2] at hset
        exact Option.noConfusion hset
      | some s2 =>
        rw [hs2] at hset
        simp only [List.length_cons, List.take_succ_cons, List.mem_cons, not_or] at hj
        have h1 := set_untouched s w j _ s2 hs2 hj.1
        have h2 := ih s2 ws' hset hj.2
        exact ⟨h2.1.trans h1.1, h2.2.trans h1.2⟩

/-- C6: hint resolution on an already-solved wire is a success no-op: the very
same state is returned, so values, markers and the solved count are untouched,
and a repeated invocation returns success again. -/
theorem solveWithHint_solved_noop (s : CS.Solution) (vID : Nat) (h : CS.Hint)
    (hsolved : s.solved.getD vID false = true) :
    s.solveWithHint vID h = .ok s := by
  rw [CS.Solution.solveWithHint, if_pos hsolved]

/-- A hint descriptor with no inputs and no output wires, for witnesses. -/
def wHint0 : CS.Hint := { id := 0, inputs := [], wires := [] }

/-- Witness for C6 on the solved wire 1 of `wSol`; applying the theorem twice
to the returned state shows the second call is a success no-op as well. -/
theorem solveWithHint_solved_noop_witness :
    wSol.solved.getD 1 false = true ∧
    wSol.solveWithHint 1 wHint0 = .ok wSol ∧
    wSol.solveWithHint 1 wHint0 = .ok wSol :=
  ⟨by decide, solveWithHint_solved_noop wSol 1 wHint0 (by decide),
    solveWithHint_solved_noop wSol 1 wHint0 (by decide)⟩

/-- C7: during hint input evaluation, an input whose real-wire term references
an unsolved wire makes `solveWithHint` return the recoverable unresolved-
dependency error with the state unchanged (no output wire assigned); when all
referenced wires are solved, each input evaluates to the sum of its `Virtual`
terms' coefficient values plus `computeTerm` of its real-wire terms. -/
theorem solveWithHint_input_eval (s : CS.Solution) (vID : Nat) (h : CS.Hint)
    (f : Hint.AnnFn) (hunsolved : s.solved.getD vID false = false)
    (hf : s.mHintsFunctions h.id = some f) :
    ((∃ lc ∈ h.inputs, ∃ t ∈ lc, t.visibility ≠ Visibility.Virtual ∧
        s.solved.getD t.wireID false = false) →
      s.solveWithHint vID h = .error CS.errWireNotInstantiated s) ∧
    ((∀ lc ∈ h.inputs, ∀ t ∈ lc, t.visibility ≠ Visibility.Virtual →
        s.solved.getD t.wireID false = true) →
      s.evalInputs h.inputs = .ok (h.inputs.map s.specLCVal)) := by
  constructor
  · intro hex
    simp only [CS.Solution.solveWithHint, hunsolved, Bool.false_eq_true, if_false,
      hf, evalInputs_error s h.inputs hex]
  · intro hall
    exact evalInputs_ok s h.inputs hall

/-- A fixed hint returning twice its single input, for witnesses. -/
def wHintFn : Hint.AnnFn :=
  { call := fun xs => ([(xs.headD 0 : Int) * 2], none), totalOutputs := fun _ => 1 }

/-- Witness solution with three wires (only wire 1 solved, to 7) and `wHintFn`
registered under id 5. -/
def wSolH : CS.Solution :=
  { values := [0, 7, 0], coefficients := [0, 1, 2, frModulus - 1],
    solved := [false, true, false], nbSolved := 1,
    mHintsFunctions := fun i => if i = 5 then some wHintFn else none }

/-- Hint using the unsolved wire 0 as input, writing wire 2. -/
def wHintBad : CS.Hint :=
  { id := 5, inputs := [[Term.mk 1 0 Visibility.Internal]], wires := [2] }

/-- Hint using the solved wire 1 as input, writing wire 2. -/
def wHintGood : CS.Hint :=
  { id := 5, inputs := [[Term.mk 1 1 Visibility.Internal]], wires := [2] }

/-- Witness for C7: the hint input over unsolved wire 0 yields the recoverable
error with unchanged state, and the input over solved wire 1 evaluates. -/
theorem solveWithHint_input_eval_witness :
    wSolH.solved.getD 2 false = false ∧
    wSolH.mHintsFunctions wHintBad.id = some wHintFn ∧
    wSolH.solveWithHint 2 wHintBad = .error CS.errWireNotInstantiated wSolH ∧
    wSolH.evalInputs wHintGood.inputs = .ok (wHintGood.inputs.map wSolH.specLCVal) :=
  ⟨by decide, rfl,
    (solveWithHint_input_eval wSolH 2 wHintBad wHintFn (by decide) rfl).1 (by decide),
    (solveWithHint_input_eval wSolH 2 wHintGood wHintFn (by decide) rfl).2 (by decide)⟩

/-- C1: when the hint's `Call` returns an error, `solveWithHint` propagates
exactly that error, and the only wire assignments performed are the outputs
the hint had written into its buffers — every wire outside the assigned
prefix keeps its value and its solved marker. -/
theorem solveWithHint_call_error_propagates (s : CS.Solution) (vID : Nat)
    (h : CS.Hint) (f : Hint.AnnFn) (e : String) (s' : CS.Solution)
    (hunsolved : s.solved.getD vID false = false)
    (hf : s.mHintsFunctions h.id = some f)
    (hall : ∀ lc ∈ h.inputs, ∀ t ∈ lc, t.visibility ≠ Visibility.Virtual →
      s.solved.getD t.wireID false = true)
    (herr : (f.call ((h.inputs.map s.specLCVal).map (· % frModulus))).2 = some e)
    (hset : s.setWires h.wires
      (f.call ((h.inputs.map s.specLCVal).map (· % frModulus))).1 = some s') :
    s.solveWithHint vID h = .error e s' ∧
    ∀ j, j ∉ h.wires.take
        (f.call ((h.inputs.map s.specLCVal).map (· % frModulus))).1.length →
      s'.values.getD j 0 = s.values.getD j 0 ∧
      s'.solved.getD j false = s.solved.getD j false := by
  constructor
  · simp only [CS.Solution.solveWithHint, hunsolved, Bool.false_eq_true, if_false,
      hf, evalInputs_ok s h.inputs hall, hset, herr]
  · intro j hj
    exact setWires_untouched s' j _ s h.wires hset hj

/-- A hint that writes 5 into its single output and fails, for the C1 witness. -/
def wErrFn : Hint.AnnFn :=
  { call := fun _ => ([5], some "boom"), totalOutputs := fun _ => 1 }

/-- Witness solution with `wErrFn` registered under id 9. -/
def wSolE : CS.Solution :=
  { values := [0, 7, 0], coefficients := [0, 1, 2, frModulus - 1],
    solved := [false, true, false], nbSolved := 1,
    mHintsFunctions := fun i => if i = 9 then some wErrFn else none }

/-- No-input hint invoking `wErrFn`, writing wire 2. -/
def wHintE : CS.Hint := { id := 9, inputs := [], wires := [2] }

/-- State after the failing hint wrote its buffer into wire 2. -/
def wSolE' : CS.Solution :=
  { wSolE with
    values := wSolE.values.set 2 ((5 : Int) : Fr)
    solved := wSolE.solved.set 2 true
    nbSolved := wSolE.nbSolved + 1 }

/-- Witness for C1: the hint's error "boom" is propagated, wire 2 carries the
written output, and wire 0 keeps its value and marker. -/
theorem solveWithHint_call_error_propagates_witness :
    wSolE.solved.getD 2 false = false ∧
    wSolE.mHintsFunctions wHintE.id = some wErrFn ∧
    (wErrFn.call ((wHintE.inputs.map wSolE.specLCVal).map (· % frModulus))).2 =
      some "boom" ∧
    wSolE.setWires wHintE.wires
      (wErrFn.call ((wHintE.inputs.map wSolE.specLCVal).map (· % frModulus))).1 =
      some wSolE' ∧
    wSolE.solveWithHint 2 wHintE = .error "boom" wSolE' ∧
    (wSolE'.values.getD 0 0 = wSolE.values.getD 0 0 ∧
      wSolE'.solved.getD 0 false = wSolE.solved.getD 0 false) :=
  ⟨by decide, rfl, rfl, rfl,
    (solveWithHint_call_error_propagates wSolE 2 wHintE wErrFn "boom" wSolE'
      (by decide) rfl (by simp [wHintE]) rfl rfl).1,
    (solveWithHint_call_error_propagates wSolE 2 wHintE wErrFn "boom" wSolE'
      (by decide) rfl (by simp [wHintE]) rfl rfl).2 0 (by decide)⟩

namespace Hint

/-- FNV-1a 32-bit prime (`hash/fnv`). -/
def fnvPrime : Nat := 16777619

/-- FNV-1a 32-bit offset basis (`hash/fnv`). -/
def fnvOffsetBasis : Nat := 2166136261

/-- One FNV-1a step: xor the byte in, multiply by the prime modulo 2^32. -/
def fnvStep (h b : Nat) : Nat := ((h ^^^ b) * fnvPrime) % 2 ^ 32

/-- Feed a byte list into the FNV-1a state. -/
def fnvBytes (h : Nat) (bs : List Nat) : Nat := bs.foldl fnvStep h

/-- Big-endian 8-byte encoding of a 64-bit value (`binary.BigEndian.PutUint64`). -/
def be64 (n : Nat) : List Nat :=
  [n / 2 ^ 56 % 256, n / 2 ^ 48 % 256, n / 2 ^ 40 % 256, n / 2 ^ 32 % 256,
   n / 2 ^ 24 % 256, n / 2 ^ 16 % 256, n / 2 ^ 8 % 256, n % 256]

/-- A `fixedArgumentsFunction` built by `NewFixedHint`: Go identifies the
wrapped computation by its reflected `runtime` function name, modelled as the
byte list `fnName`; `fn` is the wrapped computation. -/
structure FixedFn where
  fnName : List Nat
  fn : RawFunction
  nIn : Nat
  nOut : Nat

/-- `fixedArgumentsFunction.UUID`: FNV-1a over the function name followed by
the big-endian 8-byte encodings of `nIn` and of `nOut`. -/
def FixedFn.UUID (f : FixedFn) : Nat :=
  fnvBytes (fnvBytes fnvOffsetBasis f.fnName) (be64 f.nIn ++ be64 f.nOut)

/-- `fixedArgumentsFunction.Call`: an arity mismatch on the inputs or on the
output buffer returns a descriptive error before the wrapped computation runs;
otherwise the computation's result is returned. `[]` stands for the untouched
output buffers of the two error paths. -/
def FixedFn.Call (f : FixedFn) (inputs : List Nat) (resLen : Nat) :
    List Int × Option String :=
  if inputs.length ≠ f.nIn then
    ([], some ("input has " ++ toString inputs.length ++ " elements, expected "
      ++ toString f.nIn))
  else if resLen ≠ f.nOut then
    ([], some ("result has " ++ toString resLen ++ " elements, expected "
      ++ toString f.nOut))
  else f.fn inputs

/-- The process-wide registry (`backend/hint/registry.go`), id → function. -/
def Registry := List (Nat × FixedFn)

/-- `Register`: `none` models the panic "function ... registered twice" on an
identifier already present; otherwise the function is added under its UUID. -/
def Register (reg : Registry) (f : FixedFn) : Option Registry :=
  if (List.lookup f.UUID reg).isSome then none else some ((f.UUID, f) :: reg)

end Hint

/-- C8: a fixed-arity hint returns the descriptive arity-mismatch error before
the wrapped computation is invoked — on a mismatch the result does not depend
on the wrapped computation at all — and the wrapped computation runs exactly
when both the input count and the output-buffer length match. -/
theorem fixedCall_arity_guard (f : Hint.FixedFn) (inputs : List Nat)
    (resLen : Nat) :
    (inputs.length ≠ f.nIn →
      f.Call inputs resLen = ([], some ("input has " ++ toString inputs.length
        ++ " elements, expected " ++ toString f.nIn)) ∧
      ∀ g : Hint.RawFunction,
        Hint.FixedFn.Call { f with fn := g } inputs resLen =
          f.Call inputs resLen) ∧
    (inputs.length = f.nIn → resLen ≠ f.nOut →
      f.Call inputs resLen = ([], some ("result has " ++ toString resLen
        ++ " elements, expected " ++ toString f.nOut)) ∧
      ∀ g : Hint.RawFunction,
        Hint.FixedFn.Call { f with fn := g } inputs resLen =
          f.Call inputs resLen) ∧
    (inputs.length = f.nIn → resLen = f.nOut →
      f.Call inputs resLen = f.fn inputs) := by
  refine ⟨fun hin => ⟨?_, fun g => ?_⟩, fun hin hout => ⟨?_, fun g => ?_⟩,
    fun hin hout => ?_⟩
  · rw [Hint.FixedFn.Call, if_pos hin]
  · rw [Hint.FixedFn.Call, Hint.FixedFn.Call]
    simp only [if_pos hin]
  · rw [Hint.FixedFn.Call, if_neg (by simp [hin]), if_pos hout]
  · rw [Hint.FixedFn.Call, Hint.FixedFn.Call]
    simp only [if_neg (by simp [hin] : ¬inputs.length ≠ f.nIn), if_pos hout]
  · rw [Hint.FixedFn.Call, if_neg (by simp [hin]), if_neg (by simp [hout])]

/-- A fixed hint with arity (2, 2), for the C8 witness. -/
def wFixed : Hint.FixedFn :=
  { fnName := [102], fn := fun xs => ([(xs.headD 0 : Int) + 1, 2], none),
    nIn := 2, nOut := 2 }

/-- Witness for C8: one input instead of two yields the input arity error; a
matching call runs the wrapped computation. -/
theorem fixedCall_arity_guard_witness :
    ([1] : List Nat).length ≠ wFixed.nIn ∧
    wFixed.Call [1] 2 = ([], some ("input has " ++ toString ([1] : List Nat).length
      ++ " elements, expected " ++ toString wFixed.nIn)) ∧
    wFixed.Call [1, 2] 2 = wFixed.fn [1, 2] :=
  ⟨by decide, ((fixedCall_arity_guard wFixed [1] 2).1 (by decide)).1,
    (fixedCall_arity_guard wFixed [1, 2] 2).2.2 (by decide) (by decide)⟩

/-- An underlying raw computation shared by several fixed hints. -/
def collFn : Hint.RawFunction := fun _ => ([], none)

/-- First arity pair of the FNV-1a collision. -/
def collA : Hint.FixedFn :=
  { fnName := [102], fn := collFn,
    nIn := 3228723014420651609, nOut := 4429523931972142717 }

/-- Second arity pair of the FNV-1a collision. -/
def collB : Hint.FixedFn :=
  { fnName := [102], fn := collFn,
    nIn := 4186844318800354821, nOut := 1365973179037709314 }

/-- Counterexample to C5 as stated: the same wrapped computation under two
different (nIn, nOut) arities can hash to the same 32-bit identifier, and the
second registration then aborts instead of succeeding. -/
theorem newFixedHint_uuid_collision :
    Hint.FixedFn.UUID collA = Hint.FixedFn.UUID collB ∧
    ¬(collA.nIn = collB.nIn ∧ collA.nOut = collB.nOut) ∧
    ((Hint.Register [] collA).bind fun reg =>
      Hint.Register reg collB).isNone = true := by
  refine ⟨by decide, by decide, by decide⟩

/-- C5 amended: registering under an identifier already present aborts
fatally; two fixed hints over the same computation with different arities get
distinct identifiers only when their FNV-1a digests differ, and then both
registrations succeed and each is independently resolvable; the identifier is
deterministic in the computation's name and the (nIn, nOut) pair. -/
theorem register_fixed_hints (f g : Hint.FixedFn) (hne : f.UUID ≠ g.UUID) :
    (∀ reg : Hint.Registry, (List.lookup f.UUID reg).isSome = true →
      Hint.Register reg f = none) ∧
    (∃ reg1 reg2 : Hint.Registry,
      Hint.Register [] f = some reg1 ∧ Hint.Register reg1 g = some reg2 ∧
      List.lookup f.UUID reg2 = some f ∧ List.lookup g.UUID reg2 = some g) ∧
    (∀ f' : Hint.FixedFn, f'.fnName = f.fnName → f'.nIn = f.nIn →
      f'.nOut = f.nOut → Hint.FixedFn.UUID f' = f.UUID) := by
  have hfg : (f.UUID == g.UUID) = false := beq_eq_false_iff_ne.mpr hne
  have hgf : (g.UUID == f.UUID) = false := beq_eq_false_iff_ne.mpr (Ne.symm hne)
  refine ⟨fun reg hdup => ?_,
    ⟨[(f.UUID, f)], (g.UUID, g) :: [(f.UUID, f)], ?_, ?_, ?_, ?_⟩,
    fun f' h1 h2 h3 => ?_⟩
  · rw [Hint.Register, if_pos hdup]
  · rw [Hint.Register]
    simp [List.lookup]
  · rw [Hint.Register]
    simp [List.lookup, hgf]
  · simp [List.lookup, hfg]
  · simp [List.lookup]
  · rw [Hint.FixedFn.UUID, Hint.FixedFn.UUID, h1, h2, h3]

/-- The collision computation under arity (2, 2). -/
def wFixedA : Hint.FixedFn := { fnName := [102], fn := collFn, nIn := 2, nOut := 2 }

/-- The collision computation under arity (3, 3). -/
def wFixedB : Hint.FixedFn := { fnName := [102], fn := collFn, nIn := 3, nOut := 3 }

/-- Witness for the amended C5 at the non-colliding arities (2, 2) and (3, 3)
of the same computation. -/
theorem register_fixed_hints_witness :
    Hint.FixedFn.UUID wFixedA ≠ Hint.FixedFn.UUID wFixedB ∧
    ((∀ reg : Hint.Registry, (List.lookup wFixedA.UUID reg).isSome = true →
      Hint.Register reg wFixedA = none) ∧
    (∃ reg1 reg2 : Hint.Registry,
      Hint.Register [] wFixedA = some reg1 ∧
      Hint.Register reg1 wFixedB = some reg2 ∧
      List.lookup wFixedA.UUID reg2 = some wFixedA ∧
      List.lookup wFixedB.UUID reg2 = some wFixedB) ∧
    (∀ f' : Hint.FixedFn, f'.fnName = wFixedA.fnName → f'.nIn = wFixedA.nIn →
      f'.nOut = wFixedA.nOut → Hint.FixedFn.UUID f' = wFixedA.UUID)) :=
  ⟨by decide, register_fixed_hints wFixedA wFixedB (by decide)⟩

namespace Compiled

/-- A Go `compiled.Variable` (a slice of terms): `none` models the nil slice,
`some l` a non-nil slice with elements `l` (so a non-nil empty slice is
`some []`; Go distinguishes the two). -/
def GoVariable := Option (List Term)

/-- The term sequence held by a variable (a nil slice has length 0). -/
def GoVariable.toList (v : GoVariable) : List Term := v.getD []

/-- The Go comparison `v == nil`. -/
def GoVariable.isNil (v : GoVariable) : Bool := v.isNone

/-- `Variable.Equal`: the length check, then the nil-ness check
`(v == nil) != (o == nil)`, then the element-wise loop (which, under equal
lengths, is list equality). -/
def GoVariable.Equal (v o : GoVariable) : Bool :=
  if v.toList.length ≠ o.toList.length then false
  else if v.isNil != o.isNil then false
  else decide (v.toList = o.toList)

end Compiled

/-- Counterexample to C9 as stated: the nil variable and the non-nil empty
variable have identical (empty) canonical sequences — same length, equal terms
at every position — yet `Equal` returns false. -/
theorem variable_equal_nil_counterexample :
    GoVariable.Equal (none : GoVariable) (some ([] : List Term)) = false ∧
    GoVariable.toList (none : GoVariable) =
      GoVariable.toList (some ([] : List Term)) :=
  ⟨rfl, rfl⟩

/-- C9 amended: `Equal` returns true iff the two variables agree on nil-ness
and their canonical sequences are element-wise identical. -/
theorem variable_equal_iff (v o : GoVariable) :
    GoVariable.Equal v o = true ↔
      (v.isNil = o.isNil ∧ v.toList = o.toList) := by
  unfold GoVariable.Equal
  by_cases h1 : v.toList.length ≠ o.toList.length
  · rw [if_pos h1]
    constructor
    · intro h
      exact absurd h (by simp)
    · rintro ⟨hn, ht⟩
      exact absurd (congrArg List.length ht) h1
  · rw [if_neg h1]
    by_cases h2 : (v.isNil != o.isNil) = true
    · rw [if_pos h2]
      constructor
      · intro h
        exact absurd h (by simp)
      · rintro ⟨hn, ht⟩
        rw [hn] at h2
        simp at h2
    · rw [if_neg h2]
      simp only [decide_eq_true_eq]
      constructor
      · intro ht
        refine ⟨?_, ht⟩
        simpa [bne_iff_ne] using h2
      · rintro ⟨hn, ht⟩
        exact ht

namespace CS

/-- An entry of `log.ToResolve`: either `compiled.TermDelimitor` or an
ordinary term. -/
inductive LogTerm where
  | delim : LogTerm
  | term : Term → LogTerm

/-- The sentinel text for unsolved wires (solution.go:198). -/
def unsolvedVariable : String := "<unsolved>"

/-- Evaluation state of the `logValue` loop: the resolved operands so far, the
span-evaluation flag, the span accumulator and its missing-value flag. -/
structure LogState where
  toResolve : List String
  isEval : Bool
  eval : Fr
  missingValue : Bool

/-- One iteration of the `logValue` loop (solution.go:207-260): a delimiter
toggles span mode (entering resets the accumulator, leaving appends it, or the
sentinel when a value was missing); in span mode terms are summed into the
accumulator; outside span mode each term is rendered independently. -/
def Solution.logStep (s : Solution) (st : LogState) : LogTerm → LogState
  | .delim =>
    if st.isEval = false then
      { st with isEval := true, missingValue := false, eval := 0 }
    else
      { st with
        isEval := false
        toResolve := st.toResolve ++
          [if st.missingValue then unsolvedVariable else frString st.eval] }
  | .term t =>
    if st.isEval then
      if t.visibility = Visibility.Virtual then
        { st with eval := st.eval + s.coefficients.getD t.coeffID 0 }
      else if s.solved.getD t.wireID false = false then
        { st with missingValue := true }
      else
        { st with eval := st.eval + (s.computeTerm t).getD 0 }
    else
      if t.visibility = Visibility.Virtual then
        { st with toResolve := st.toResolve ++
          [if t.coeffID = CoeffIdMinusOne then "-1"
           else frString (s.coefficients.getD t.coeffID 0)] }
      else
        { st with toResolve := st.toResolve ++
          (if t.coeffID = CoeffIdMinusOne ∨ t.coeffID = CoeffIdOne then []
           else [frString (s.coefficients.getD t.coeffID 0)]) ++
          [if s.solved.getD t.wireID false then frString (s.values.getD t.wireID 0)
           else unsolvedVariable] }

/-- `(*solution).logValue`: the resolved-operand list produced by folding the
loop over the entries (the final `fmt.Sprintf` formatting is external to the
model). -/
def Solution.logValue (s : Solution) (entries : List LogTerm) : List String :=
  (entries.foldl s.logStep
    { toResolve := [], isEval := false, eval := 0, missingValue := false }).toResolve

end CS

/-- The spec-side rendering of one term outside span mode: a `Virtual` term is
rendered as its literal coefficient value (the reserved -1 in its signed
form); a non-Virtual term gets its coefficient string prepended only when the
coefficient id is neither 1 nor -1, followed by the wire's value when solved
or the unresolved sentinel otherwise. -/
def renderTermSpec (s : CS.Solution) (t : Term) : List String :=
  if t.visibility = Visibility.Virtual then
    [if t.coeffID = CoeffIdMinusOne then "-1"
     else frString (s.coefficients.getD t.coeffID 0)]
  else
    (if t.coeffID ≠ CoeffIdOne ∧ t.coeffID ≠ CoeffIdMinusOne then
      [frString (s.coefficients.getD t.coeffID 0)] else []) ++
    [if s.solved.getD t.wireID false then frString (s.values.getD t.wireID 0)
     else CS.unsolvedVariable]

/-- C10: outside span-evaluation mode the `logValue` loop appends for each
term exactly the spec-side rendering, leaving the rest of the state alone. -/
theorem logStep_term_render (s : CS.Solution) (st : CS.LogState) (t : Term)
    (hspan : st.isEval = false) :
    s.logStep st (.term t) =
      { st with toResolve := st.toResolve ++ renderTermSpec s t } := by
  by_cases hv : t.visibility = Visibility.Virtual
  · simp [CS.Solution.logStep, hspan, renderTermSpec, hv]
  · by_cases h1 : t.coeffID = CoeffIdMinusOne ∨ t.coeffID = CoeffIdOne
    · have h2 : ¬(t.coeffID ≠ CoeffIdOne ∧ t.coeffID ≠ CoeffIdMinusOne) := by
        tauto
      simp [CS.Solution.logStep, hspan, renderTermSpec, hv, h1, h2]
    · have h2 : t.coeffID ≠ CoeffIdOne ∧ t.coeffID ≠ CoeffIdMinusOne := by
        tauto
      simp [CS.Solution.logStep, hspan, renderTermSpec, hv, h1, h2]

/-- Log state outside span mode with one operand already resolved. -/
def wLogSt : CS.LogState :=
  { toResolve := ["x"], isEval := false, eval := 0, missingValue := false }

/-- Witness for C10: a coefficient-2 term over the solved wire 1 of `wSol` is
rendered as its coefficient string followed by the wire value. -/
theorem logStep_term_render_witness :
    wLogSt.isEval = false ∧
    wSol.logStep wLogSt (.term (Term.mk 2 1 Visibility.Internal)) =
      { wLogSt with toResolve := wLogSt.toResolve ++
          renderTermSpec wSol (Term.mk 2 1 Visibility.Internal) } :=
  ⟨rfl, logStep_term_render wSol wLogSt (Term.mk 2 1 Visibility.Internal) rfl⟩
